import Mathlib

/-!
# Verification of the `gzp` parallel gzip sink (`src/lib.rs`)

Shallow embedding of the parallel-compression engine: the builder with its
validated setters, the front-end sink (`write` / `flush` / `finish` on a
`BytesMut` buffer feeding a bounded ingest channel), the coordinator
(`ParGz::run`, which spawns a compressor task and a writer task and
aggregates their results), and the bounded-channel pipeline.

Bytes are modelled as `Nat`, `BytesMut` as `List Nat`, and the ingest
channel seen from the front end as the accumulating list `sent` of blocks
handed over in order.  A fallible channel send is modelled by a `Bool`
parameter (`sendOk`): `true` means the receiver is alive and the send is
accepted, `false` means the receiving end is closed and the send fails.
The external block codec (`flate2::bufread::GzEncoder`) is abstract: a
function from compression level and block to the bytes of one gzip member,
together with a decoder satisfying the multi-member contract.
-/

namespace Gzp

abbrev Byte := Nat

/-- `const BUFSIZE: usize = 64 * (1 << 10) * 2;` — 128 KiB default block size. -/
def BUFSIZE : Nat := 64 * (1 <<< 10) * 2

/-- The `ParGzBuilder` configuration (the downstream writer is carried
separately by the pipeline model, so it is not a field here). -/
structure ParGzBuilder where
  compression_level : Nat
  buffer_size : Nat
  num_threads : Nat
  deriving Repr, DecidableEq

/-- `ParGzBuilder::new`: level 3, `BUFSIZE`, all available threads
(`num_cpus::get()` is passed in as `numCpus`). -/
def ParGzBuilder.new (numCpus : Nat) : ParGzBuilder :=
  { compression_level := 3, buffer_size := BUFSIZE, num_threads := numCpus }

/-- `ParGzBuilder::buffer_size`: `assert!(buffer_size > 0)` then store.
The panic of a failed assertion is modelled as `none`. -/
def ParGzBuilder.buffer_size_set (b : ParGzBuilder) (bs : Nat) :
    Option ParGzBuilder :=
  if bs > 0 then some { b with buffer_size := bs } else none

/-- `ParGzBuilder::num_threads`:
`assert!(num_threads <= num_cpus::get() && num_threads > 0)` then store.
`numCpus` is the ambient `num_cpus::get()`. -/
def ParGzBuilder.num_threads_set (b : ParGzBuilder) (numCpus n : Nat) :
    Option ParGzBuilder :=
  if n ≤ numCpus ∧ n > 0 then some { b with num_threads := n } else none

/-- `ParGzBuilder::compression_level`: stores the level with no assertion. -/
def ParGzBuilder.compression_level_set (b : ParGzBuilder) (lvl : Nat) :
    ParGzBuilder :=
  { b with compression_level := lvl }

/-- The error enum `ParGzError` (`io::Error` payloads are collapsed to the
variant, which is all the claims need). -/
inductive ParGzError where
  | ChannelSend
  | Io
  | Join
  | Unknown
  deriving Repr, DecidableEq

/-- Front-end state of a `ParGz` sink: the `BytesMut` buffer, the configured
`buffer_size`, and the ordered list of blocks already accepted by the ingest
channel (the view of everything sent over `tx`). -/
structure ParGz where
  buffer : List Byte
  buffer_size : Nat
  sent : List (List Byte)
  deriving Repr, DecidableEq

/-- The front end produced by `ParGzBuilder::build`: empty buffer (capacity
is irrelevant to contents), nothing sent yet. -/
def ParGz.init (bs : Nat) : ParGz :=
  { buffer := [], buffer_size := bs, sent := [] }

/-- `<ParGz as Write>::write` with an explicit send outcome.  The slice is
appended first (`extend_from_slice`); if the buffer length then strictly
exceeds `buffer_size`, exactly one prefix of `buffer_size` bytes is split
off (`split_to`) and sent; a failed send drops that block and surfaces an
I/O error (`reserve` only touches capacity and is omitted).  Returns the
post-state and `Ok(buf.len())` or the error. -/
def ParGz.write_send (st : ParGz) (buf : List Byte) (sendOk : Bool) :
    ParGz × Except ParGzError Nat :=
  let buffer := st.buffer ++ buf
  if buffer.length > st.buffer_size then
    let b := buffer.take st.buffer_size
    let rest := buffer.drop st.buffer_size
    if sendOk then
      ({ st with buffer := rest, sent := st.sent ++ [b] }, .ok buf.length)
    else
      ({ st with buffer := rest }, .error .Io)
  else
    ({ st with buffer := buffer }, .ok buf.length)

/-- `write` on the healthy pipeline (send accepted). -/
def ParGz.write (st : ParGz) (buf : List Byte) : ParGz × Nat :=
  ((st.write_send buf true).1, buf.length)

/-- `<ParGz as Write>::flush` with an explicit send outcome:
`self.buffer.split()` takes the whole buffer (emptying it) and the block is
sent; a failed send drops the block and surfaces an I/O error. -/
def ParGz.flush_send (st : ParGz) (sendOk : Bool) :
    ParGz × Except ParGzError Unit :=
  if sendOk then
    ({ st with buffer := [], sent := st.sent ++ [st.buffer] }, .ok ())
  else
    ({ st with buffer := [] }, .error .Io)

/-- `flush` on the healthy pipeline. -/
def ParGz.flush (st : ParGz) : ParGz :=
  (st.flush_send true).1

/-- Outcome of joining the coordinator thread: the thread either panicked
or returned its `Result<(), ParGzError>`. -/
inductive JoinOutcome where
  | panicked
  | returned (r : Except ParGzError Unit)
  deriving Repr

/-- What `finish` does overall: `self.handle.join().unwrap()` re-raises a
coordinator panic instead of returning an error value. -/
inductive FinishOutcome where
  | panic
  | result (r : Except ParGzError Unit)
  deriving Repr

/-- Trace of `ParGz::finish`: final front-end state, whether the ingest
producer endpoint was closed (`drop(self.tx)`; in Rust `self` is consumed,
so `tx` is dropped on the early-return path too), whether the coordinator
thread was joined, and the outcome. -/
structure FinishTrace where
  final : ParGz
  tx_closed : Bool
  joined : Bool
  outcome : FinishOutcome
  deriving Repr

/-- `ParGz::finish`: `self.flush()?; drop(self.tx); self.handle.join().unwrap()`.
On a flush failure the error is returned (converted to `ParGzError::Io` by
`?` and `#[from]`) without joining; otherwise the join result is unwrapped:
a panic propagates, a returned result is returned as is. -/
def ParGz.finish (st : ParGz) (sendOk : Bool) (join : JoinOutcome) :
    FinishTrace :=
  let p := st.flush_send sendOk
  match p.2 with
  | .error e => ⟨p.1, true, false, .result (.error e)⟩
  | .ok _ =>
    match join with
    | .panicked => ⟨p.1, true, true, .panic⟩
    | .returned r => ⟨p.1, true, true, .result r⟩

/-- Aggregation of task results in `ParGz::run`:
`compressor.await??; writer_task.await??; Ok(())`.  Each `await` yields a
join outcome; a `JoinError` becomes `ParGzError::Join` via `#[from]`.  The
compressor (dispatcher) result is checked first. -/
def ParGz.run_aggregate (comp wri : JoinOutcome) : Except ParGzError Unit :=
  match comp with
  | .panicked => .error .Join
  | .returned (.error e) => .error e
  | .returned (.ok _) =>
    match wri with
    | .panicked => .error .Join
    | .returned r => r

/-- The external block codec: `GzEncoder::new(&chunk[..], compression_level)`
read to end produces the bytes of one standalone gzip member for the chunk. -/
structure BlockCodec where
  encode : Nat → List Byte → List Byte

/-- The contract of a multi-member gzip decoder `decode` against a codec at a
fixed level: decoding the empty stream gives the empty sequence, and a
stream that starts with an encoded member continues with the member's
original bytes followed by the decoding of the rest. -/
def DecodesMulti (decode : List Byte → List Byte) (codec : BlockCodec)
    (level : Nat) : Prop :=
  decode [] = [] ∧
    ∀ b rest, decode (codec.encode level b ++ rest) = b ++ decode rest

/-- The compressor (dispatcher) task in `ParGz::run`: for each chunk received
from `rx` in order it spawns a blocking compression job and sends the job's
handle over `out_sender` without awaiting it; the emit queue therefore holds,
in ingest order, handles that resolve to the encoded chunks. -/
def compressorTask (codec : BlockCodec) (level : Nat)
    (chunks : List (List Byte)) : List (List Byte) :=
  chunks.map (codec.encode level)

/-- The writer task in `ParGz::run`: awaits each handle from `out_receiver`
in emit-queue order and passes the resolved bytes to `writer.write_all`; the
downstream sink receives the concatenation in that order. -/
def writerTask (handles : List (List Byte)) : List Byte :=
  handles.flatten

/-- Running the front end over a sequence of `write` calls starting from a
fresh sink. -/
def frontEnd (bs : Nat) (writes : List (List Byte)) : ParGz :=
  writes.foldl (fun s b => (s.write b).1) (ParGz.init bs)

/-- The blocks handed to the ingest channel by a whole session: a sequence
of `write` calls followed by the final flush performed by `finish`. -/
def finishBlocks (bs : Nat) (writes : List (List Byte)) :
    List (List Byte) :=
  ((frontEnd bs writes).flush).sent

/-- The bytes the downstream sink receives for a whole session: the writer
task's output over the handles the compressor task emitted for the session's
blocks. -/
def pargzOutput (codec : BlockCodec) (level bs : Nat)
    (writes : List (List Byte)) : List Byte :=
  writerTask (compressorTask codec level (finishBlocks bs writes))

/-- Capacity of the ingest channel created in `ParGzBuilder::build`:
`mpsc::channel(self.num_threads)`. -/
def ParGzBuilder.build_ingest_capacity (b : ParGzBuilder) : Nat :=
  b.num_threads

/-- Capacity of the emit channel created in `ParGz::run` on the coordinator
thread launched by `build`: `mpsc::channel(num_threads)`. -/
def run_emit_capacity (num_threads : Nat) : Nat :=
  num_threads

/-- Occupancy of the two bounded channels: the blocks waiting in the ingest
queue and the pending compression-job handles waiting in the emit queue. -/
structure PipeState where
  ingest : List (List Byte)
  emit : List (List Byte)
  deriving Repr, DecidableEq

/-- The empty pipeline, as right after `build`. -/
def PipeState.start : PipeState := ⟨[], []⟩

/-- One step of the pipeline, with both channels bounded by `cap`:
the front end sends a block into the ingest queue (only accepted while the
queue is below capacity), the dispatcher dequeues a block, spawns its job
and sends the handle into the emit queue (accepted while below capacity),
or the writer dequeues a handle to await and write it. -/
inductive PipeStep (cap : Nat) : PipeState → PipeState → Prop where
  | ingest_send (ing em : List (List Byte)) (b : List Byte) :
      ing.length < cap →
      PipeStep cap ⟨ing, em⟩ ⟨ing ++ [b], em⟩
  | dispatch (ing em : List (List Byte)) (b : List Byte) :
      em.length < cap →
      PipeStep cap ⟨b :: ing, em⟩ ⟨ing, em ++ [b]⟩
  | emit_recv (ing em : List (List Byte)) (h : List Byte) :
      PipeStep cap ⟨ing, h :: em⟩ ⟨ing, em⟩

/-- States the pipeline can reach from the empty state. -/
def PipeReachable (cap : Nat) (s : PipeState) : Prop :=
  Relation.ReflTransGen (PipeStep cap) PipeState.start s

/-- One public front-end operation, for stating quiescent-state invariants. -/
inductive FrontOp where
  | write (buf : List Byte)
  | flush
  deriving Repr

/-- Applying one public operation to the front end (healthy pipeline). -/
def FrontOp.apply (st : ParGz) : FrontOp → ParGz
  | .write buf => (st.write buf).1
  | .flush => st.flush

/-- The length of the slice an operation appends (0 for `flush`). -/
def FrontOp.sliceLen : FrontOp → Nat
  | .write buf => buf.length
  | .flush => 0

/-- A concrete block codec used to instantiate the codec-contract
hypotheses on concrete inputs: each member is the block preceded by its
length. -/
def demoCodec : BlockCodec :=
  ⟨fun _ b => b.length :: b⟩

/-- Fuel-driven worker for `demoDecode` (each member consumes at least the
leading length byte, so the input length is always enough fuel). -/
def demoDecodeAux : Nat → List Byte → List Byte
  | 0, _ => []
  | _ + 1, [] => []
  | fuel + 1, n :: rest => rest.take n ++ demoDecodeAux fuel (rest.drop n)

/-- A concrete multi-member decoder for `demoCodec`. -/
def demoDecode (l : List Byte) : List Byte :=
  demoDecodeAux l.length l

/-- `demoDecodeAux` ignores the exact fuel as long as it is sufficient. -/
theorem demoDecodeAux_congr :
    ∀ (f1 f2 : Nat) (l : List Byte), l.length ≤ f1 → l.length ≤ f2 →
      demoDecodeAux f1 l = demoDecodeAux f2 l := by
  intro f1
  induction f1 with
  | zero =>
    intro f2 l h1 _
    have hl : l = [] := List.length_eq_zero.mp (Nat.le_zero.mp h1)
    subst hl
    cases f2 <;> rfl
  | succ f ih =>
    intro f2 l h1 h2
    cases l with
    | nil => cases f2 <;> rfl
    | cons n rest =>
      cases f2 with
      | zero => simp at h2
      | succ f2 =>
        simp only [demoDecodeAux]
        have hd : (rest.drop n).length ≤ rest.length := by
          simp only [List.length_drop]
          omega
        simp only [List.length_cons] at h1 h2
        rw [ih f2 (rest.drop n) (by omega) (by omega)]

/-- `demoDecode` satisfies the multi-member contract for `demoCodec` at any
level. -/
theorem demoCodec_contract (level : Nat) :
    DecodesMulti demoDecode demoCodec level := by
  constructor
  · rfl
  · intro b rest
    have hlen : rest.length ≤ (b ++ rest).length := by
      simp only [List.length_append]
      omega
    calc demoDecode ((b.length :: b) ++ rest)
        = (b ++ rest).take b.length ++
            demoDecodeAux (b ++ rest).length ((b ++ rest).drop b.length) :=
          rfl
      _ = b ++ demoDecodeAux (b ++ rest).length rest := by
          rw [List.take_left, List.drop_left]
      _ = b ++ demoDecodeAux rest.length rest := by
          rw [demoDecodeAux_congr (b ++ rest).length rest.length rest hlen
            (le_refl rest.length)]
      _ = b ++ demoDecode rest := rfl

/-- One `write` call preserves the stream decomposition: everything sent so
far followed by the buffer equals everything sent before followed by the old
buffer and the new slice. -/
theorem write_stream_eq (st : ParGz) (buf : List Byte) :
    ((st.write buf).1.sent).flatten ++ (st.write buf).1.buffer =
      st.sent.flatten ++ st.buffer ++ buf := by
  simp only [ParGz.write, ParGz.write_send]
  split
  · simp [List.flatten_append, List.append_assoc, List.take_append_drop]
  · simp [List.append_assoc]

/-- `flush` moves the whole buffer into the sent stream. -/
theorem flush_stream_eq (st : ParGz) :
    (st.flush).sent.flatten = st.sent.flatten ++ st.buffer := by
  simp [ParGz.flush, ParGz.flush_send, List.flatten_append]

/-- Folding `write` over a list of slices: the sent stream followed by the
buffer is the initial stream followed by all the slices. -/
theorem foldl_write_stream_eq (writes : List (List Byte)) (st : ParGz) :
    ((writes.foldl (fun s b => (s.write b).1) st).sent).flatten ++
      (writes.foldl (fun s b => (s.write b).1) st).buffer =
      st.sent.flatten ++ st.buffer ++ writes.flatten := by
  induction writes generalizing st with
  | nil => simp
  | cons w ws ih =>
    simp only [List.foldl_cons, List.flatten_cons]
    rw [ih, write_stream_eq, List.append_assoc]

/-- The blocks shipped by a whole session concatenate to exactly the bytes
passed to `write`, in order. -/
theorem finishBlocks_flatten (bs : Nat) (writes : List (List Byte)) :
    (finishBlocks bs writes).flatten = writes.flatten := by
  have h := foldl_write_stream_eq writes (ParGz.init bs)
  simp only [ParGz.init, List.flatten_nil, List.nil_append] at h
  simp only [finishBlocks, frontEnd, ParGz.init]
  rw [flush_stream_eq]
  exact h

/-- A decoder satisfying the multi-member contract recovers the blocks from
the concatenation of their encodings. -/
theorem decode_flatten_map (decode : List Byte → List Byte)
    (codec : BlockCodec) (level : Nat)
    (hd : DecodesMulti decode codec level) (blocks : List (List Byte)) :
    decode ((blocks.map (codec.encode level)).flatten) = blocks.flatten := by
  induction blocks with
  | nil => simpa using hd.1
  | cons b bl ih =>
    simp only [List.map_cons, List.flatten_cons, List.flatten_cons]
    rw [hd.2 b, ih]

/-- C1. Round-trip correctness: for every list of written slices and every
valid configuration (`block_size > 0`, `compression_level ≤ 9`,
`1 ≤ worker_count ≤ hardware threads`), writing them all and calling
`finish` yields downstream bytes that any decoder satisfying the
multi-member contract for the block codec decodes back to exactly the
concatenation of the written bytes. -/
theorem roundtrip_correct (codec : BlockCodec) (decode : List Byte → List Byte)
    (level bs workers hw : Nat) (writes : List (List Byte))
    (hbs : bs > 0) (hlvl : level ≤ 9) (hw1 : 1 ≤ workers) (hw2 : workers ≤ hw)
    (hdec : DecodesMulti decode codec level) :
    decode (pargzOutput codec level bs writes) = writes.flatten := by
  simp only [pargzOutput, writerTask, compressorTask]
  rw [decode_flatten_map decode codec level hdec, finishBlocks_flatten]

/-- Witness for C1 at a concrete configuration and input. -/
theorem roundtrip_correct_witness :
    demoDecode (pargzOutput demoCodec 3 1 [[7, 8]]) = [7, 8] :=
  roundtrip_correct demoCodec demoDecode 3 1 1 1 [[7, 8]]
    (by decide) (by decide) (by decide) (by decide) (demoCodec_contract 3)

/-- C2. Order preservation: the compressor task emits, onto the emit queue,
one handle per ingested block in exactly ingest (dequeue) order, without
awaiting the jobs; the writer awaits handles in emit-queue order and hands
the downstream sink the concatenation of the resolved members in that
order; consequently the decoded downstream bytes equal the concatenation of
all bytes passed to `write`, in the order passed. -/
theorem order_preserved (codec : BlockCodec) (decode : List Byte → List Byte)
    (level : Nat) (hdec : DecodesMulti decode codec level) :
    (∀ chunks, compressorTask codec level chunks =
      chunks.map (codec.encode level)) ∧
    (∀ handles, writerTask handles = handles.flatten) ∧
    (∀ bs writes, decode (pargzOutput codec level bs writes) =
      writes.flatten) := by
  refine ⟨fun _ => rfl, fun _ => rfl, fun bs writes => ?_⟩
  simp only [pargzOutput, writerTask, compressorTask]
  rw [decode_flatten_map decode codec level hdec, finishBlocks_flatten]

/-- Witness for C2 at a concrete codec and input. -/
theorem order_preserved_witness :
    (∀ chunks, compressorTask demoCodec 3 chunks =
      chunks.map (demoCodec.encode 3)) ∧
    (∀ handles, writerTask handles = handles.flatten) ∧
    (∀ bs writes, demoDecode (pargzOutput demoCodec 3 bs writes) =
      writes.flatten) :=
  order_preserved demoCodec demoDecode 3 (demoCodec_contract 3)

/-- C3. `write` appends the whole slice to the buffer; when the buffer then
strictly exceeds `block_size` it splits off exactly one prefix of exactly
`block_size` bytes and sends it (only that one block even for oversized
slices, the rest staying buffered), and on success it returns the slice
length. -/
theorem write_spec (st : ParGz) (buf : List Byte) :
    (st.write buf).2 = buf.length ∧
    (if (st.buffer ++ buf).length > st.buffer_size then
      (st.write buf).1.sent =
        st.sent ++ [(st.buffer ++ buf).take st.buffer_size] ∧
      ((st.buffer ++ buf).take st.buffer_size).length = st.buffer_size ∧
      (st.write buf).1.buffer = (st.buffer ++ buf).drop st.buffer_size
    else
      (st.write buf).1.sent = st.sent ∧
      (st.write buf).1.buffer = st.buffer ++ buf) := by
  refine ⟨rfl, ?_⟩
  simp only [ParGz.write, ParGz.write_send]
  split
  · next h =>
    refine ⟨by simp, ?_, by simp⟩
    simp only [List.length_take]
    omega
  · simp

/-- C5. `flush` enqueues the entire current buffer (possibly empty or short)
as exactly one block, leaves the buffer empty, and changes nothing else of
the front end; it does not consult or advance the compression pipeline. -/
theorem flush_spec (st : ParGz) :
    (st.flush).sent = st.sent ++ [st.buffer] ∧
    (st.flush).buffer = [] ∧
    (st.flush).buffer_size = st.buffer_size := by
  refine ⟨?_, ?_, ?_⟩ <;> simp [ParGz.flush, ParGz.flush_send]

/-- C4. `finish` performs exactly one final flush (the remaining buffer
becomes one more sent block), closes the ingest producer endpoint, joins
the coordinator, and returns exactly the coordinator's result; the
coordinator's result is the first non-success among the dispatcher
(compressor) and writer task results, so no error is swallowed. -/
theorem finish_spec (st : ParGz) (r : Except ParGzError Unit)
    (e : ParGzError) (wri : JoinOutcome) :
    (st.finish true (.returned r)).final.sent = st.sent ++ [st.buffer] ∧
    (st.finish true (.returned r)).final.buffer = [] ∧
    (st.finish true (.returned r)).tx_closed = true ∧
    (st.finish true (.returned r)).joined = true ∧
    (st.finish true (.returned r)).outcome = .result r ∧
    ParGz.run_aggregate (.returned (.error e)) wri = .error e ∧
    ParGz.run_aggregate (.returned (.ok ())) (.returned r) = r := by
  refine ⟨?_, ?_, ?_, ?_, ?_, ?_, ?_⟩ <;>
    simp [ParGz.finish, ParGz.flush_send, ParGz.run_aggregate]

/-- Running a sequence of public front-end operations from a fresh sink,
for quiescent-state invariants. -/
def runOps (bs : Nat) (ops : List FrontOp) : ParGz :=
  ops.foldl FrontOp.apply (ParGz.init bs)

/-- One public operation keeps the configured size and, when its slice is
no longer than the block size, keeps the buffer within the block size. -/
theorem apply_buffer_le (st : ParGz) (op : FrontOp)
    (hsz : st.buffer.length ≤ st.buffer_size)
    (hop : op.sliceLen ≤ st.buffer_size) :
    (op.apply st).buffer.length ≤ st.buffer_size ∧
    (op.apply st).buffer_size = st.buffer_size := by
  cases op with
  | write buf =>
    simp only [FrontOp.sliceLen] at hop
    simp only [FrontOp.apply, ParGz.write, ParGz.write_send]
    split
    · next h =>
      refine ⟨?_, rfl⟩
      show ((st.buffer ++ buf).drop st.buffer_size).length ≤ st.buffer_size
      simp only [List.length_append] at h
      simp only [List.length_drop, List.length_append]
      omega
    · next h =>
      refine ⟨?_, rfl⟩
      show (st.buffer ++ buf).length ≤ st.buffer_size
      simp only [List.length_append] at h ⊢
      omega
  | flush =>
    refine ⟨?_, rfl⟩
    simp [FrontOp.apply, ParGz.flush, ParGz.flush_send]

/-- C6 counterexample: with `block_size = 1`, a single one-byte `write`
leaves the sink quiescent with a buffer of length exactly `block_size`,
refuting the claimed strict bound `buffer.length < block_size`. -/
theorem quiescent_buffer_cex :
    ¬ ((runOps 1 [.write [0]]).buffer.length < 1) := by
  decide

/-- C6 amended: at every quiescent moment the buffer length is at most
`block_size` (not strictly below it), provided every `write` slice is at
most `block_size` long; a single oversized `write` can leave even more than
`block_size` bytes buffered, since only one prefix is split per call. -/
theorem quiescent_buffer_le (bs : Nat) (ops : List FrontOp)
    (hops : ∀ op ∈ ops, FrontOp.sliceLen op ≤ bs) :
    (runOps bs ops).buffer.length ≤ bs := by
  suffices h : ∀ st, st.buffer_size = bs → st.buffer.length ≤ bs →
      (∀ op ∈ ops, FrontOp.sliceLen op ≤ bs) →
      (ops.foldl FrontOp.apply st).buffer.length ≤ bs ∧
      (ops.foldl FrontOp.apply st).buffer_size = bs by
    exact (h (ParGz.init bs) rfl (by simp [ParGz.init]) hops).1
  clear hops
  induction ops with
  | nil => exact fun st h1 h2 _ => ⟨h2, h1⟩
  | cons op rest ih =>
    intro st h1 h2 hops
    simp only [List.foldl_cons]
    have h2' : st.buffer.length ≤ st.buffer_size := by rw [h1]; exact h2
    have hop' : op.sliceLen ≤ st.buffer_size := by
      rw [h1]; exact hops op (List.mem_cons_self op rest)
    have hstep := apply_buffer_le st op h2' hop'
    exact ih (op.apply st) (hstep.2.trans h1) (h1 ▸ hstep.1)
      (fun o ho => hops o (List.mem_cons_of_mem op ho))

/-- Witness for the amended C6 at a concrete run. -/
theorem quiescent_buffer_le_witness :
    (runOps 2 [.write [5], .flush, .write [1, 2]]).buffer.length ≤ 2 :=
  quiescent_buffer_le 2 [.write [5], .flush, .write [1, 2]] (by decide)

/-- C7 counterexample: the compression-level setter performs no validation:
setting the out-of-range level 10 succeeds and stores 10, instead of
failing construction as claimed. -/
theorem compression_level_cex :
    ((ParGzBuilder.new 4).compression_level_set 10).compression_level = 10 ∧
    ¬ (10 ≤ 9) := by
  decide

/-- C7 amended: `buffer_size` fails (panics) exactly when the size is 0 and
otherwise stores it; `num_threads` fails exactly when the count is outside
`[1, hardware threads]` and otherwise stores it; `compression_level` stores
any level without validation. -/
theorem builder_validation (b : ParGzBuilder) (numCpus bs n lvl : Nat) :
    (b.buffer_size_set bs = none ↔ bs = 0) ∧
    (b.buffer_size_set bs = if bs > 0
      then some { b with buffer_size := bs } else none) ∧
    (b.num_threads_set numCpus n = none ↔ ¬ (1 ≤ n ∧ n ≤ numCpus)) ∧
    (b.num_threads_set numCpus n = if n ≤ numCpus ∧ n > 0
      then some { b with num_threads := n } else none) ∧
    b.compression_level_set lvl = { b with compression_level := lvl } := by
  refine ⟨?_, rfl, ?_, rfl, rfl⟩
  · simp only [ParGzBuilder.buffer_size_set]
    split <;> simp <;> omega
  · simp only [ParGzBuilder.num_threads_set]
    split <;> next h => simp <;> omega

/-- Both channel occupancies stay within the capacity in every reachable
pipeline state. -/
theorem pipe_reachable_caps (cap : Nat) (s : PipeState)
    (h : PipeReachable cap s) :
    s.ingest.length ≤ cap ∧ s.emit.length ≤ cap := by
  induction h with
  | refl => simp [PipeState.start]
  | tail _ step ih =>
    cases step with
    | ingest_send ing em b hlt =>
      simp only [List.length_append, List.length_cons, List.length_nil] at *
      omega
    | dispatch ing em b hlt =>
      simp only [List.length_append, List.length_cons, List.length_nil] at *
      omega
    | emit_recv ing em hd =>
      simp only [List.length_cons] at *
      omega

/-- C8. `build` creates the ingest channel with capacity exactly
`num_threads` and the coordinator it launches creates the emit channel with
capacity exactly `num_threads`; with both channels bounded by the worker
count, every reachable pipeline state holds at most `worker_count`
uncompressed in-flight blocks plus at most `worker_count` pending
compression jobs, in total at most `2 × worker_count`. -/
theorem channels_bounded (b : ParGzBuilder) (cap : Nat) (s : PipeState)
    (h : PipeReachable cap s) :
    b.build_ingest_capacity = b.num_threads ∧
    run_emit_capacity b.num_threads = b.num_threads ∧
    s.ingest.length + s.emit.length ≤ 2 * cap := by
  have hc := pipe_reachable_caps cap s h
  exact ⟨rfl, rfl, by omega⟩

/-- Witness for C8 at a concrete reachable state: one block sent into the
ingest queue of a one-worker pipeline. -/
theorem channels_bounded_witness :
    (ParGzBuilder.new 1).build_ingest_capacity =
      (ParGzBuilder.new 1).num_threads ∧
    run_emit_capacity (ParGzBuilder.new 1).num_threads =
      (ParGzBuilder.new 1).num_threads ∧
    (PipeState.mk [[1]] []).ingest.length +
      (PipeState.mk [[1]] []).emit.length ≤ 2 * 1 :=
  channels_bounded (ParGzBuilder.new 1) 1 ⟨[[1]], []⟩
    (Relation.ReflTransGen.single
      (PipeStep.ingest_send [] [] [1] (by decide)))

/-- C9. If the coordinator thread terminated by panicking, `finish` panics
as well (`self.handle.join().unwrap()`): the outcome is a propagated panic,
never an ordinary `ParGzError` return value. -/
theorem finish_propagates_panic (st : ParGz) :
    (st.finish true .panicked).outcome = .panic := by
  simp [ParGz.finish, ParGz.flush_send]

/-- C10. `write` is not atomic on failure: the slice is appended before the
fallible send, and when the ingest send of the split-off block fails the
call returns an I/O error with the `block_size`-byte prefix already removed
from the buffer and never delivered (`sent` unchanged), while the remaining
appended bytes stay buffered. -/
theorem write_send_failure (st : ParGz) (buf : List Byte)
    (h : (st.buffer ++ buf).length > st.buffer_size) :
    (st.write_send buf false).2 = .error .Io ∧
    (st.write_send buf false).1.sent = st.sent ∧
    (st.write_send buf false).1.buffer =
      (st.buffer ++ buf).drop st.buffer_size := by
  simp only [ParGz.write_send]
  rw [if_pos h]
  exact ⟨rfl, rfl, rfl⟩

/-- Witness for C10 at a concrete oversized write with a closed channel. -/
theorem write_send_failure_witness :
    (ParGz.write_send ⟨[9], 1, []⟩ [7, 8] false).2 = .error .Io ∧
    (ParGz.write_send ⟨[9], 1, []⟩ [7, 8] false).1.sent = [] ∧
    (ParGz.write_send ⟨[9], 1, []⟩ [7, 8] false).1.buffer =
      (([9] : List Byte) ++ [7, 8]).drop 1 :=
  write_send_failure ⟨[9], 1, []⟩ [7, 8] (by decide)

end Gzp
